import Mathlib

/-!
Verification of the core of `lib/codespell.py`: the identifier tokenizer,
the exclusion engine, the ispell session protocol decoder, the location
index, and the result aggregator.  Python constructs are shallowly
embedded: strings are `List Char` / `String`, dictionaries are association
lists, `Set` membership is list membership, raised exceptions are
`Except` errors, and the two ispell pipes are modelled by an event trace.
-/

/-! ## Tokenizer: the regex `[A-Z]?[a-z]+|[A-Z]+(?![a-z])` and `findall` -/

/--
One attempt of `CodeChecker._word_re`, the regex
`[A-Z]?[a-z]+|[A-Z]+(?![a-z])`, anchored at the head of `cs`
(Python `re` alternation is ordered and quantifiers are greedy with
backtracking).  Returns the matched word and the remaining characters.
The first alternative `[A-Z]?[a-z]+` succeeds iff the head is a lowercase
letter, or an uppercase letter immediately followed by a lowercase one.
The second alternative takes the maximal uppercase run; if the character
after the run is lowercase the negative lookahead fails and the engine
backs off one uppercase letter (backing off below one repetition of `+`
fails the alternative).
-/
def matchWordAt (cs : List Char) : Option (List Char × List Char) :=
  match cs with
  | [] => none
  | c :: rest =>
    if c.isLower then
      some (c :: rest.takeWhile Char.isLower, rest.dropWhile Char.isLower)
    else if c.isUpper then
      if (rest.head?.map Char.isLower).getD false then
        some (c :: rest.takeWhile Char.isLower, rest.dropWhile Char.isLower)
      else
        let tw := rest.takeWhile Char.isUpper
        let after := rest.dropWhile Char.isUpper
        if (after.head?.map Char.isLower).getD false then
          match tw with
          | [] => none
          | _ :: _ => some ((c :: tw).dropLast, (c :: tw).getLastD 'A' :: after)
        else some (c :: tw, after)
    else none

theorem dropLast_append_getLastD_cons {α : Type} (a : α) (d : List α) :
    ∀ (l : List α), l ≠ [] → l.dropLast ++ l.getLastD a :: d = l ++ d
  | [], h => absurd rfl h
  | [x], _ => rfl
  | x :: y :: tl, _ => by
    have ih := dropLast_append_getLastD_cons a d (y :: tl) (by simp)
    simp only [List.dropLast_cons₂, List.getLastD_cons, List.cons_append] at ih ⊢
    rw [ih]

theorem matchWordAt_append {cs w rest : List Char}
    (h : matchWordAt cs = some (w, rest)) : w ++ rest = cs := by
  match cs with
  | [] => simp [matchWordAt] at h
  | c :: cs' =>
    simp only [matchWordAt] at h
    split at h
    · simp only [Option.some.injEq, Prod.mk.injEq] at h
      obtain ⟨hw, hr⟩ := h
      subst hw; subst hr
      simp [List.takeWhile_append_dropWhile]
    · split at h
      · split at h
        · simp only [Option.some.injEq, Prod.mk.injEq] at h
          obtain ⟨hw, hr⟩ := h
          subst hw; subst hr
          simp [List.takeWhile_append_dropWhile]
        · split at h
          · match htw : cs'.takeWhile Char.isUpper with
            | [] => rw [htw] at h; exact absurd h (by simp)
            | t :: ts =>
              rw [htw] at h
              simp only [Option.some.injEq, Prod.mk.injEq] at h
              obtain ⟨hw, hr⟩ := h
              subst hw; subst hr
              rw [dropLast_append_getLastD_cons 'A' _ (c :: t :: ts) (by simp)]
              rw [show (t :: ts : List Char) = cs'.takeWhile Char.isUpper from htw.symm]
              simp [List.takeWhile_append_dropWhile]
          · simp only [Option.some.injEq, Prod.mk.injEq] at h
            obtain ⟨hw, hr⟩ := h
            subst hw; subst hr
            simp [List.takeWhile_append_dropWhile]
      · exact absurd h (by simp)

theorem matchWordAt_ne_nil {cs w rest : List Char}
    (h : matchWordAt cs = some (w, rest)) : w ≠ [] := by
  match cs with
  | [] => simp [matchWordAt] at h
  | c :: cs' =>
    simp only [matchWordAt] at h
    split at h
    · simp only [Option.some.injEq, Prod.mk.injEq] at h
      exact h.1 ▸ (by simp)
    · split at h
      · split at h
        · simp only [Option.some.injEq, Prod.mk.injEq] at h
          exact h.1 ▸ (by simp)
        · split at h
          · match htw : cs'.takeWhile Char.isUpper with
            | [] => rw [htw] at h; exact absurd h (by simp)
            | t :: ts =>
              rw [htw] at h
              simp only [Option.some.injEq, Prod.mk.injEq] at h
              refine h.1 ▸ ?_
              simp
          · simp only [Option.some.injEq, Prod.mk.injEq] at h
            exact h.1 ▸ (by simp)
      · exact absurd h (by simp)

theorem matchWordAt_length {cs w rest : List Char}
    (h : matchWordAt cs = some (w, rest)) : rest.length < cs.length := by
  have ha := matchWordAt_append h
  have hn := matchWordAt_ne_nil h
  have : w.length + rest.length = cs.length := by
    rw [← ha, List.length_append]
  have hw : 0 < w.length := List.length_pos.mpr hn
  omega

theorem matchWordAt_isAlpha {cs w rest : List Char}
    (h : matchWordAt cs = some (w, rest)) : ∀ c ∈ w, c.isAlpha = true := by
  match cs with
  | [] => simp [matchWordAt] at h
  | c :: cs' =>
    simp only [matchWordAt] at h
    split at h
    · simp only [Option.some.injEq, Prod.mk.injEq] at h
      obtain ⟨hw, _⟩ := h
      subst hw
      intro x hx
      rcases List.mem_cons.mp hx with hx | hx
      · subst hx; simp_all [Char.isAlpha]
      · have := List.mem_takeWhile_imp hx
        simp [Char.isAlpha, this]
    · split at h
      · split at h
        · simp only [Option.some.injEq, Prod.mk.injEq] at h
          obtain ⟨hw, _⟩ := h
          subst hw
          intro x hx
          rcases List.mem_cons.mp hx with hx | hx
          · subst hx; simp_all [Char.isAlpha]
          · have := List.mem_takeWhile_imp hx
            simp [Char.isAlpha, this]
        · split at h
          · match htw : cs'.takeWhile Char.isUpper with
            | [] => rw [htw] at h; exact absurd h (by simp)
            | t :: ts =>
              rw [htw] at h
              simp only [Option.some.injEq, Prod.mk.injEq] at h
              obtain ⟨hw, _⟩ := h
              subst hw
              intro x hx
              have hx' : x ∈ c :: t :: ts := List.dropLast_subset _ hx
              rcases List.mem_cons.mp hx' with hx' | hx'
              · subst hx'; simp_all [Char.isAlpha]
              · have : x ∈ cs'.takeWhile Char.isUpper := htw ▸ hx'
                have := List.mem_takeWhile_imp this
                simp [Char.isAlpha, this]
          · simp only [Option.some.injEq, Prod.mk.injEq] at h
            obtain ⟨hw, _⟩ := h
            subst hw
            intro x hx
            rcases List.mem_cons.mp hx with hx | hx
            · subst hx; simp_all [Char.isAlpha]
            · have := List.mem_takeWhile_imp hx
              simp [Char.isAlpha, this]
      · exact absurd h (by simp)

theorem matchWordAt_eq_none {c : Char} {rest : List Char}
    (h : matchWordAt (c :: rest) = none) : c.isAlpha = false := by
  simp only [matchWordAt] at h
  split at h
  · exact absurd h (by simp)
  · split at h
    · split at h
      · exact absurd h (by simp)
      · split at h
        · match htw : rest.takeWhile Char.isUpper with
          | [] =>
            exfalso
            match rest with
            | [] => simp_all
            | r :: rs =>
              have hdw : (r :: rs).dropWhile Char.isUpper = r :: rs := by
                rcases hu : r.isUpper with _ | _
                · simp [List.dropWhile_cons, hu]
                · simp [List.takeWhile_cons, hu] at htw
              simp_all [hdw]
          | t :: ts => rw [htw] at h; exact absurd h (by simp)
        · exact absurd h (by simp)
    · rename_i h1 h2
      simp only [Bool.not_eq_true] at h1 h2
      simp [Char.isAlpha, h1, h2]

/--
Model of `re.findall` with `_word_re`: scan left to right, at each
position try the regex; on a match, emit the word and resume after it,
otherwise skip one character.  The recursion is driven by a fuel argument
so the definition is structural; `cs.length` fuel always suffices because
every step consumes at least one character.
-/
def findWordsGo : Nat → List Char → List (List Char)
  | 0, _ => []
  | fuel + 1, cs =>
    match matchWordAt cs with
    | some (w, rest) => w :: findWordsGo fuel rest
    | none =>
      match cs with
      | [] => []
      | _ :: rest => findWordsGo fuel rest

/-- The ordered word list `_word_re.findall(line)`. -/
def findWords (cs : List Char) : List (List Char) := findWordsGo cs.length cs

theorem findWordsGo_mem : ∀ (fuel : Nat) (cs : List Char), ∀ w ∈ findWordsGo fuel cs,
    w ≠ [] ∧ ∀ c ∈ w, c.isAlpha = true := by
  intro fuel
  induction fuel with
  | zero => intro cs w hw; simp [findWordsGo] at hw
  | succ fuel ih =>
    intro cs w hw
    simp only [findWordsGo] at hw
    match hm : matchWordAt cs with
    | some (w', rest) =>
      rw [hm] at hw
      rcases List.mem_cons.mp hw with hw | hw
      · subst hw; exact ⟨matchWordAt_ne_nil hm, matchWordAt_isAlpha hm⟩
      · exact ih rest w hw
    | none =>
      rw [hm] at hw
      match cs with
      | [] => simp at hw
      | c :: rest => exact ih rest w hw

theorem findWordsGo_flatten : ∀ (fuel : Nat) (cs : List Char), cs.length ≤ fuel →
    (findWordsGo fuel cs).flatten = cs.filter Char.isAlpha := by
  intro fuel
  induction fuel with
  | zero =>
    intro cs hlen
    have : cs = [] := List.length_eq_zero.mp (Nat.le_zero.mp hlen)
    subst this; simp [findWordsGo]
  | succ fuel ih =>
    intro cs hlen
    simp only [findWordsGo]
    match hm : matchWordAt cs with
    | some (w, rest) =>
      have hrest : rest.length ≤ fuel := by
        have := matchWordAt_length hm
        omega
      have happ := matchWordAt_append hm
      have halpha := matchWordAt_isAlpha hm
      simp only [List.flatten_cons]
      rw [ih rest hrest, ← happ, List.filter_append,
          List.filter_eq_self.mpr halpha]
    | none =>
      match cs with
      | [] => simp
      | c :: rest =>
        have hc := matchWordAt_eq_none hm
        have hrest : rest.length ≤ fuel := by
          simp only [List.length_cons] at hlen; omega
        rw [ih rest hrest, List.filter_cons_of_neg]
        simp [hc]

theorem findWords_mem {cs : List Char} : ∀ w ∈ findWords cs,
    w ≠ [] ∧ ∀ c ∈ w, c.isAlpha = true :=
  findWordsGo_mem cs.length cs

theorem findWords_flatten (cs : List Char) :
    (findWords cs).flatten = cs.filter Char.isAlpha :=
  findWordsGo_flatten cs.length cs (Nat.le_refl _)


/-! ## Exclusion engine: the regex `\b(e1|e2|...)\b` and `re.sub` -/

/-- Python regex word character class `\w` (ASCII, as in Python 2 `re`). -/
def isWordChar (c : Char) : Bool := c.isAlpha || c.isDigit || c == '_'

/-- Python regex `\b`: a word boundary lies between two (optional) characters
iff exactly one of them is a word character. -/
def atBoundary (prev next : Option Char) : Bool :=
  ((prev.map isWordChar).getD false) != ((next.map isWordChar).getD false)

/--
Ordered alternation of `exclude_re`: try each excluded string in the order
it appears in the pattern; an alternative succeeds when it is a nonempty
prefix of `cs` whose trailing `\b` also holds.  (An empty alternative would
only ever produce an empty match, which `re.sub` with an empty replacement
leaves without effect, so it is treated as a non-match.)
-/
def matchExclAt : List (List Char) → List Char → Option (List Char)
  | [], _ => none
  | e :: es, cs =>
    if !e.isEmpty && e.isPrefixOf cs
        && atBoundary (some (e.getLastD ' ')) (cs.drop e.length).head? then
      some e
    else matchExclAt es cs

/--
Model of `self.exclude_re.sub('', line)`: scan left to right tracking the
previous character of the original line; at each position where the
leading `\b` holds, try the alternation; on a match drop the matched
characters and resume after them, otherwise copy one character.  Fuel-driven
structural recursion; `cs.length` fuel always suffices.
-/
def stripGo : Nat → List (List Char) → Option Char → List Char → List Char
  | 0, _, _, cs => cs
  | fuel + 1, excl, prev, cs =>
    match cs with
    | [] => []
    | c :: rest =>
      if atBoundary prev (some c) then
        match matchExclAt excl (c :: rest) with
        | some e => stripGo fuel excl (some (e.getLastD ' ')) ((c :: rest).drop e.length)
        | none => c :: stripGo fuel excl (some c) rest
      else c :: stripGo fuel excl (some c) rest

/-- `exclude_re.sub('', line)` for the compiled pattern built from `excl`. -/
def stripExclusions (excl : List String) (line : List Char) : List Char :=
  stripGo line.length (excl.map String.data) none line

/-! ## CodeChecker state and operations -/

/-- The fields of `CodeChecker` that the core operations read and write.
`exclude` models the `Set` by a list with membership semantics, and
`exclude_re` models the compiled regex by the ordered list of alternatives
it was built from (`None` when no language was ever set).  `locations` is
the word -> line-number-list dictionary, and `sent` records, in order, the
words passed to `SpellChecker.send`. -/
structure CodeCheckerState where
  language : Option String
  custom_exclude : List String
  exclude : List String
  exclude_re : Option (List String)
  line_num : Nat
  locations : List (String × List Nat)
  sent : List String
  unique : Bool
deriving DecidableEq

/-- `CodeChecker.__init__` for a file whose extension determines no
language: every container empty, no exclusions, `unique` off. -/
def initChecker : CodeCheckerState :=
  { language := none, custom_exclude := [], exclude := [], exclude_re := none,
    line_num := 0, locations := [], sent := [], unique := false }

/-- `CodeChecker.BASE_EXCLUDE`. -/
def BASE_EXCLUDE : List String :=
  ["usr", "argv", "strerror", "errno", "stdout", "stderr", "readline",
   "int", "char", "bool"]

/-- `CodeChecker.LANG_EXCLUDE` as an association list in source order. -/
def LANG_EXCLUDE : List (String × List String) :=
  [("python", ["def", "elif", "sys", "os", "startswith", "endswith",
               "optparse", "prog", "args", "metavar"]),
   ("c", []),
   ("java", []),
   ("perl", [])]

/-- `CodeChecker.exclude_string`: append to the pending custom exclusions. -/
def excludeString (st : CodeCheckerState) (s : String) : CodeCheckerState :=
  { st with custom_exclude := st.custom_exclude ++ [s] }

/-- `CodeChecker.set_language`: raise `ValueError` for an unknown language
(the Python message interpolates `repr(lang)`; the quotes `repr` adds are
omitted here), otherwise rebuild `exclude` and `exclude_re` from
`BASE_EXCLUDE`, the per-language list, and `custom_exclude`. -/
def setLanguage (st : CodeCheckerState) (lang : String) : Except String CodeCheckerState :=
  match LANG_EXCLUDE.lookup lang with
  | none => .error ("unknown language: " ++ lang)
  | some langList =>
    let exclusions := BASE_EXCLUDE ++ langList ++ st.custom_exclude
    .ok { st with language := some lang,
                  exclude_re := some exclusions,
                  exclude := exclusions }

/-- Python substring containment `needle in haystack`. -/
def containsSub (needle : List Char) : List Char → Bool
  | [] => needle.isEmpty
  | c :: rest => needle.isPrefixOf (c :: rest) || containsSub needle rest

/-- `CodeChecker.guess_language`: on a `#!` first line containing `python`
or `perl`, select that language (both are known, so `set_language` cannot
raise; the error branch is therefore never taken). -/
def guessLanguage (st : CodeCheckerState) (line : String) : CodeCheckerState :=
  if !("#!".data.isPrefixOf line.data) then st
  else if containsSub "python".data line.data then
    match setLanguage st "python" with
    | .ok st' => st'
    | .error _ => st
  else if containsSub "perl".data line.data then
    match setLanguage st "perl" with
    | .ok st' => st'
    | .error _ => st
  else st

/-- `CodeChecker.split`: strip excluded strings when a pattern was compiled,
find all words, and drop words that are members of the exclusion set. -/
def CodeCheckerState.split (st : CodeCheckerState) (line : String) : List String :=
  let stripped := match st.exclude_re with
    | some excl => stripExclusions excl line.data
    | none => line.data
  ((findWords stripped).map (fun w => String.mk w)).filter
    (fun w => !(st.exclude.contains w))

/-! ## Location index and the send loop -/

/-- Dictionary lookup `self.locations.get(word)`. -/
def lookupLoc : List (String × List Nat) → String → Option (List Nat)
  | [], _ => none
  | (k, v) :: rest, w => if k = w then some v else lookupLoc rest w

/-- Dictionary update `self.locations[word].append(n)` for a present key. -/
def appendLoc : List (String × List Nat) → String → Nat → List (String × List Nat)
  | [], _, _ => []
  | (k, v) :: rest, w, n =>
    if k = w then (k, v ++ [n]) :: rest else (k, v) :: appendLoc rest w n

/-- The body of the inner loop of `CodeChecker._send_words`: if the word is
already in `locations`, append the line number to its list; otherwise
create the entry and send the word to ispell. -/
def recordWord (n : Nat) (st : CodeCheckerState) (w : String) : CodeCheckerState :=
  match lookupLoc st.locations w with
  | some _ => { st with locations := appendLoc st.locations w n }
  | none => { st with locations := st.locations ++ [(w, [n])],
                      sent := st.sent ++ [w] }

/--
`CodeChecker._send_words` without the final `done_sending` call: iterate
over the lines of the file, guessing the language on the first line when
none is known, incrementing `line_num`, splitting the line and recording
or sending each word.  Besides the final state it returns the log of
`(line_num, split line)` pairs, i.e. the words each line produced.
-/
def sendWordsLoop (st : CodeCheckerState) :
    List String → CodeCheckerState × List (Nat × List String)
  | [] => (st, [])
  | line :: rest =>
    let st1 := if st.line_num = 0 ∧ st.language = none
               then guessLanguage st line else st
    let st2 := { st1 with line_num := st1.line_num + 1 }
    let ws := st2.split line
    let st3 := ws.foldl (recordWord st2.line_num) st2
    let res := sendWordsLoop st3 rest
    (res.1, (st2.line_num, ws) :: res.2)

/-! ## SpellChecker: the ispell session -/

/-- Suggestion report for one word, decoded from one ispell output line. -/
structure Verdict where
  word : String
  suggestions : List String
deriving DecidableEq

/-- Python `str.isspace` characters relevant to `str.split(None, ...)`. -/
def isPySpace (c : Char) : Bool :=
  c == ' ' || c == '\t' || c == '\n' || c == '\x0d' || c == '\x0b' || c == '\x0c'

/-- One step of Python whitespace splitting: skip leading whitespace and
take the next maximal non-whitespace field, if any. -/
def splitWSField (cs : List Char) : Option (List Char × List Char) :=
  let cs' := cs.dropWhile isPySpace
  match cs' with
  | [] => none
  | _ :: _ => some (cs'.takeWhile (fun c => !isPySpace c),
                    cs'.dropWhile (fun c => !isPySpace c))

/-- Python `s.split(None, 3)` followed by unpacking into exactly four
values: three whitespace-delimited fields and the non-empty remainder
(leading whitespace stripped, the rest verbatim).  `none` models the
`ValueError` raised when fewer than four values are present. -/
def splitMax3 (cs : List Char) :
    Option (List Char × List Char × List Char × List Char) :=
  match splitWSField cs with
  | none => none
  | some (f1, r1) =>
    match splitWSField r1 with
    | none => none
    | some (f2, r2) =>
      match splitWSField r2 with
      | none => none
      | some (f3, r3) =>
        let rest := r3.dropWhile isPySpace
        match rest with
        | [] => none
        | _ :: _ => some (f1, f2, f3, rest)

/-- Python 2 `int(s)`: optional surrounding whitespace, optional sign,
then one or more digits. -/
def parsePyInt (cs : List Char) : Option Int :=
  let cs1 := (cs.dropWhile isPySpace).reverse
  let cs2 := (cs1.dropWhile isPySpace).reverse
  let core := match cs2 with
    | '-' :: ds => some (true, ds)
    | '+' :: ds => some (false, ds)
    | ds => some (false, ds)
  match core with
  | some (neg, ds) =>
    if ds.isEmpty || !(ds.all Char.isDigit) then none
    else
      let v : Nat := ds.foldl (fun acc d => acc * 10 + (d.toNat - 48)) 0
      some (if neg then -(v : Int) else (v : Int))
  | none => none

/-- Python `s.split(sep)` for a nonempty separator: non-overlapping
occurrences scanned left to right.  Fuel-driven; `cs.length` suffices. -/
def splitOnSepGo (sep : List Char) : Nat → List Char → List Char → List (List Char)
  | 0, acc, cs => [(acc.reverse ++ cs)]
  | fuel + 1, acc, cs =>
    match cs with
    | [] => [acc.reverse]
    | c :: rest =>
      if sep.isPrefixOf (c :: rest) && !sep.isEmpty then
        acc.reverse :: splitOnSepGo sep fuel [] ((c :: rest).drop sep.length)
      else
        splitOnSepGo sep fuel (c :: acc) rest

/-- Python `extra.split(", ")`. -/
def splitOnSep (sep : List Char) (cs : List Char) : List (List Char) :=
  splitOnSepGo sep cs.length [] cs

/--
The per-line decoding inside `SpellChecker.check`: `code` is the first
character of the line, `extra` is `line[1:-1]` (the marker and the
trailing newline dropped).  Lines starting with `&` or `?` carry a word,
a count, an offset and a comma-separated suggestion list; lines starting
with `#` carry a word the engine has no suggestions for; any other
leading character is ignored (`.ok none`).  An `.error` result models the
exception Python would raise on a malformed line (`ValueError` from tuple
unpacking or `int`, `IndexError` on an empty line or an all-whitespace
`#` payload).
-/
def parseVerdictLine : List Char → Except String (Option Verdict)
  | [] => .error "IndexError: string index out of range"
  | c :: rest =>
    let extra := rest.dropLast
    if c = '&' || c = '?' then
      match splitMax3 extra with
      | none => .error "ValueError: need more than 3 values to unpack"
      | some (orig, count, _offset, extra') =>
        match parsePyInt count with
        | none => .error "ValueError: invalid literal for int"
        | some _ =>
          .ok (some { word := String.mk orig,
                      suggestions := (splitOnSep ", ".data extra').map String.mk })
    else if c = '#' then
      match splitWSField extra with
      | none => .error "IndexError: list index out of range"
      | some (orig, _) => .ok (some { word := String.mk orig, suggestions := [] })
    else .ok none


/-!
## SpellChecker teardown

In the source, `SpellChecker.close` is declared as `def close():` — with
no `self` parameter.  Invoking `checker.close()` on an instance therefore
raises `TypeError` before the body (which compares the two pipe statuses
and warns on mismatch or non-clean exit) can run at all.
-/

/-- The parameter list of `SpellChecker.close` exactly as written in the
source: empty, i.e. even the `self` parameter is missing. -/
def close_formal_params : List String := []

/-- Python method-call arity: invoking a method on an instance passes the
instance plus the explicit arguments, and the call enters the body only
when that count equals the number of formal parameters; otherwise it
raises `TypeError`. -/
def methodCallEnters (formals : List String) (explicitArgs : Nat) : Bool :=
  formals.length == 1 + explicitArgs

/-- The body of `SpellChecker.close` as written (as it would execute with
`self` bound): compare the two pipe close statuses and return the warnings
emitted — one on mismatched statuses, one on a matching non-`None`
status, none on a clean match.  It never raises. -/
def closeBody (in_status out_status : Option Int) : List String :=
  if in_status ≠ out_status then
    ["huh? ispell_in status and ispell_out status differ"]
  else if in_status ≠ none then
    ["ispell failed with nonzero exit status"]
  else []

/-! ## ResultAggregator: `CodeChecker._check` -/

/-- Message formatting in `_check`: `"%s: %s ?"` with the comma-joined
guesses when there are any, otherwise `"%s ?"`. -/
def formatMessage (bad : String) (guesses : List String) : String :=
  if !guesses.isEmpty then bad ++ ": " ++ String.intercalate ", " guesses ++ " ?"
  else bad ++ " ?"

/-- The message-building loop of `_check`: for each `(bad_word, guesses)`
pair of the ispell report, emit `(line, message)` pairs — one at the first
recorded line in `unique` mode, else one per recorded line.  (Python would
raise `KeyError`/`IndexError` for a word with no recorded location; such a
word is never reported by ispell since only recorded words are sent, and
the model defaults to no findings / line 0 there.) -/
def buildMessages (st : CodeCheckerState) (report : List (String × List String)) :
    List (Nat × String) :=
  report.flatMap (fun p =>
    let message := formatMessage p.1 p.2
    if st.unique then [(((lookupLoc st.locations p.1).getD []).headD 0, message)]
    else ((lookupLoc st.locations p.1).getD []).map (fun n => (n, message)))

/-- Python string comparison: lexicographic on code points. -/
def charListLtb : List Char → List Char → Bool
  | [], [] => false
  | [], _ :: _ => true
  | _ :: _, [] => false
  | a :: as, b :: bs => if a < b then true else if b < a then false else charListLtb as bs

/-- Python tuple comparison `(line_num_a, msg_a) <= (line_num_b, msg_b)`:
lexicographic on the pair, strings compared by code points. -/
def pairLe (a b : Nat × String) : Bool :=
  a.1 < b.1 || (a.1 == b.1 && !(charListLtb b.2.data a.2.data))

/-- The Prop form of `pairLe`, for sortedness statements. -/
def pairLeR (a b : Nat × String) : Prop := pairLe a b = true

instance : DecidableRel pairLeR := fun a b => by
  unfold pairLeR; infer_instance

/-- `CodeChecker._check` up to the final formatting loop: build the
`(line, message)` pairs and sort them as Python `list.sort()` does —
stably, by the lexicographic tuple order.  `List.insertionSort` is a
stable sort, so it computes the same list. -/
def checkMessages (st : CodeCheckerState) (report : List (String × List String)) :
    List (Nat × String) :=
  List.insertionSort pairLeR (buildMessages st report)

/-! ## The two-phase pipe discipline of `check_file` -/

/-- Events on the two ispell pipes, in the order `check_file` causes them. -/
inductive IspellEvent where
  | send (w : String)
  | doneSending
  | readVerdicts
deriving DecidableEq

/-- The pipe events of `CodeChecker.check_file` on a file with the given
lines: `_send_words` writes each first-occurrence word (collected in
order in `sent`) and then calls `SpellChecker.done_sending`, which closes
the outgoing pipe; only then does `_check` call `SpellChecker.check`,
which reads the incoming pipe to end of stream. -/
def checkFileTrace (st : CodeCheckerState) (lines : List String) : List IspellEvent :=
  ((sendWordsLoop st lines).1.sent.map IspellEvent.send)
    ++ [IspellEvent.doneSending] ++ [IspellEvent.readVerdicts]

/-! ## Specification-side helpers -/

/-- First-occurrence subsequence: fold the words into an accumulator,
keeping each word only the first time it appears. -/
def firstOcc (acc : List String) (ws : List String) : List String :=
  ws.foldl (fun acc w => if w ∈ acc then acc else acc ++ [w]) acc

/-! ## Character facts -/

theorem isAlpha_not_digit {c : Char} (h : c.isAlpha = true) : c.isDigit = false := by
  simp only [Char.isAlpha, Char.isUpper, Char.isLower, Char.isDigit, Bool.or_eq_true,
    Bool.and_eq_true, decide_eq_true_eq] at *
  rw [Bool.and_eq_false_iff]
  simp only [decide_eq_false_iff_not]
  rcases h with ⟨h1, h2⟩ | ⟨h1, h2⟩ <;>
  · right
    intro h4
    have a3 : c.toNat ≤ 57 := h4
    first
    | (have a1 : (65 : Nat) ≤ c.toNat := h1; omega)
    | (have a1 : (97 : Nat) ≤ c.toNat := h1; omega)

theorem isAlpha_ne_underscore {c : Char} (h : c.isAlpha = true) : c ≠ '_' := by
  rintro rfl
  simp [Char.isAlpha, Char.isUpper, Char.isLower] at h

/-! ## Claim theorems -/

/-- Claim C1: with no exclusions configured, the tokenizer splits the four
identifiers of the spec examples into exactly the stated ordered word
lists. -/
theorem claim_C1 :
    initChecker.split "getRemaningObjects" = ["get", "Remaning", "Objects"] ∧
    initChecker.split "HTTPResponse" = ["HTTP", "Response"] ∧
    initChecker.split "getHTTPResponse" = ["get", "HTTP", "Response"] ∧
    initChecker.split "SOME_CONSTENT" = ["SOME", "CONSTENT"] := by
  refine ⟨?_, ?_, ?_, ?_⟩ <;> decide

/-- Claim C2: the verdict-line decoder classifies lines by their first
character: the `&` example line decodes to the verdict for `recieve`
with the two suggestions in order, the `#` example line decodes to the
verdict for `gnarbuckle` with no suggestions, and a line whose first
character is none of `&`, `?`, `#` produces no verdict. -/
theorem claim_C2 :
    parseVerdictLine "& recieve 2 10: receive, relieve\n".data =
      .ok (some { word := "recieve", suggestions := ["receive", "relieve"] }) ∧
    parseVerdictLine "# gnarbuckle 0\n".data =
      .ok (some { word := "gnarbuckle", suggestions := [] }) ∧
    ∀ (c : Char) (cs : List Char), c ≠ '&' → c ≠ '?' → c ≠ '#' →
      parseVerdictLine (c :: cs) = .ok none := by
  refine ⟨by rfl, by rfl, ?_⟩
  intro c cs h1 h2 h3
  simp [parseVerdictLine, h1, h2, h3]

/-- Witness for C2: a concrete acceptance-style line with marker `x`
yields no verdict. -/
theorem claim_C2_witness : parseVerdictLine ('x' :: "abc\n".data) = .ok none :=
  claim_C2.2.2 'x' "abc\n".data (by decide) (by decide) (by decide)

/-- Claim C4: a member of the active exclusion set never appears in the output
of `split`, whatever the line and whatever the rest of the state. -/
theorem claim_C4 (st : CodeCheckerState) (line w : String)
    (h : w ∈ st.exclude) : w ∉ st.split line := by
  intro hmem
  simp only [CodeCheckerState.split] at hmem
  have h2 := (List.mem_filter.mp hmem).2
  simp only [Bool.not_eq_true'] at h2
  simp at h2
  exact h2 h

/-- The checker state right after `set_language("python")` on a fresh
checker (the `.error` branch is unreachable for a known language). -/
def stPython : CodeCheckerState :=
  match setLanguage initChecker "python" with
  | .ok s => s
  | .error _ => initChecker

/-- Witness for C4: `int` is excluded for Python and indeed never
emitted, here from the line `int x`. -/
theorem claim_C4_witness : "int" ∈ stPython.exclude ∧ "int" ∉ stPython.split "int x" :=
  ⟨by decide, claim_C4 stPython "int x" "int" (by decide)⟩

/-- Claim C5: on input made of letters, digits and underscores only, with no
exclusions configured, every character of every emitted word is neither a
digit nor an underscore, and the concatenation of the emitted words is
the input with all non-alphabetic characters removed. -/
theorem claim_C5 (line : String)
    (h : ∀ c ∈ line.data, c.isAlphanum = true ∨ c = '_') :
    (∀ w ∈ initChecker.split line, ∀ c ∈ w.data, c.isDigit = false ∧ c ≠ '_') ∧
    ((initChecker.split line).map String.data).flatten = line.data.filter Char.isAlpha := by
  have hsplit : initChecker.split line = (findWords line.data).map String.mk := by
    simp [CodeCheckerState.split, initChecker]
  constructor
  · intro w hw c hc
    rw [hsplit] at hw
    obtain ⟨w', hw', rfl⟩ := List.mem_map.mp hw
    have halpha := (findWords_mem w' hw').2
    have hc' : c ∈ w' := hc
    exact ⟨isAlpha_not_digit (halpha c hc'), isAlpha_ne_underscore (halpha c hc')⟩
  · rw [hsplit, List.map_map]
    have hid : (String.data ∘ String.mk) = id := rfl
    rw [hid, List.map_id, findWords_flatten]

/-- Witness for C5 at the identifier `get_remaning2Objects`. -/
theorem claim_C5_witness :
    ((initChecker.split "get_remaning2Objects").map String.data).flatten =
      "get_remaning2Objects".data.filter Char.isAlpha :=
  (claim_C5 "get_remaning2Objects" (by decide)).2

/-- Claim C8 context: `SpellChecker.close` is declared without `self`, so no
invocation on an instance — with however many explicit arguments — can
ever enter the body; Python raises `TypeError` instead of warning and
returning normally. -/
theorem claim_C8 (explicitArgs : Nat) :
    methodCallEnters close_formal_params explicitArgs = false := by
  simp only [methodCallEnters, close_formal_params, List.length_nil, beq_eq_false_iff_ne]
  omega

/-- Claim C10: `exclude_string` only appends to the pending custom exclusions;
the active exclusion set, the stripping pattern and hence the output of
`split` on every line are unchanged until `set_language` runs again. -/
theorem claim_C10 (st : CodeCheckerState) (s : String) :
    (excludeString st s).custom_exclude = st.custom_exclude ++ [s] ∧
    (excludeString st s).exclude = st.exclude ∧
    (excludeString st s).exclude_re = st.exclude_re ∧
    ∀ line, (excludeString st s).split line = st.split line :=
  ⟨rfl, rfl, rfl, fun _ => rfl⟩

/-- Claim C9: `set_language` raises `ValueError` exactly for languages that are
not keys of `LANG_EXCLUDE`; for a known language it succeeds and the new
exclusion set holds exactly the base list, the per-language list and
the caller-supplied custom exclusions. -/
theorem claim_C9 (st : CodeCheckerState) (lang : String) :
    (LANG_EXCLUDE.lookup lang = none →
      setLanguage st lang = .error ("unknown language: " ++ lang)) ∧
    (∀ ll, LANG_EXCLUDE.lookup lang = some ll →
      ∃ st', setLanguage st lang = .ok st' ∧ st'.language = some lang ∧
        ∀ w, w ∈ st'.exclude ↔ (w ∈ BASE_EXCLUDE ∨ w ∈ ll ∨ w ∈ st.custom_exclude)) := by
  constructor
  · intro h
    unfold setLanguage
    rw [h]
  · intro ll h
    unfold setLanguage
    rw [h]
    refine ⟨_, rfl, rfl, ?_⟩
    intro w
    simp [List.mem_append, or_assoc]

/-- Witness for C9: `fortran` is rejected; after selecting `python` both a
base exclusion and a python-specific one are in the active set. -/
theorem claim_C9_witness :
    setLanguage initChecker "fortran" = .error "unknown language: fortran" ∧
    "int" ∈ stPython.exclude ∧ "def" ∈ stPython.exclude := by
  refine ⟨(claim_C9 initChecker "fortran").1 rfl, ?_, ?_⟩
  · obtain ⟨st', heq, _, hmem⟩ := (claim_C9 initChecker "python").2 _ rfl
    have hst : stPython = st' := by simp [stPython, heq]
    rw [hst]
    exact (hmem "int").mpr (Or.inl (by decide))
  · obtain ⟨st', heq, _, hmem⟩ := (claim_C9 initChecker "python").2 _ rfl
    have hst : stPython = st' := by simp [stPython, heq]
    rw [hst]
    exact (hmem "def").mpr (Or.inr (Or.inl (by decide)))

theorem trace_elem_index {sent : List String} {i : Nat} {e : IspellEvent}
    (h : (sent.map IspellEvent.send ++
          [IspellEvent.doneSending, IspellEvent.readVerdicts])[i]? = some e) :
    ((∃ w, e = IspellEvent.send w) ∧ i < sent.length) ∨
    (e = IspellEvent.doneSending ∧ i = sent.length) ∨
    (e = IspellEvent.readVerdicts ∧ i = sent.length + 1) := by
  rcases (show i < (sent.map IspellEvent.send).length ∨
      (sent.map IspellEvent.send).length ≤ i by omega) with hlt | hge
  · rw [List.getElem?_append_left hlt] at h
    rw [List.getElem?_map] at h
    obtain ⟨a, _, hae⟩ := Option.map_eq_some'.mp h
    left
    exact ⟨⟨a, hae.symm⟩, by simpa using hlt⟩
  · rw [List.getElem?_append_right hge] at h
    simp only [List.length_map] at h hge
    rcases hk : i - sent.length with _ | k
    · rw [hk] at h
      right; left
      exact ⟨(Option.some.inj h).symm, by omega⟩
    · rcases k with _ | k2
      · rw [hk] at h
        right; right
        exact ⟨(Option.some.inj h).symm, by omega⟩
      · rw [hk] at h
        simp at h

/-- Claim C6: in the pipe-event trace of a whole-file check, every word send
strictly precedes the close of the outgoing channel, which strictly
precedes the read of the incoming verdict channel. -/
theorem claim_C6 (st : CodeCheckerState) (lines : List String) :
    (∀ (i j : Nat) (w : String),
      (checkFileTrace st lines)[i]? = some (IspellEvent.send w) →
      (checkFileTrace st lines)[j]? = some IspellEvent.doneSending → i < j) ∧
    (∀ (i j : Nat), (checkFileTrace st lines)[i]? = some IspellEvent.doneSending →
      (checkFileTrace st lines)[j]? = some IspellEvent.readVerdicts → i < j) := by
  have htr : checkFileTrace st lines =
      (sendWordsLoop st lines).1.sent.map IspellEvent.send ++
        [IspellEvent.doneSending, IspellEvent.readVerdicts] := by
    simp [checkFileTrace]
  constructor
  · intro i j w h1 h2
    rw [htr] at h1 h2
    rcases trace_elem_index h1 with ⟨_, hi⟩ | ⟨habs, _⟩ | ⟨habs, _⟩
    · rcases trace_elem_index h2 with ⟨⟨w', habs⟩, _⟩ | ⟨_, hj⟩ | ⟨habs, _⟩
      · simp at habs
      · omega
      · simp at habs
    · simp at habs
    · simp at habs
  · intro i j h1 h2
    rw [htr] at h1 h2
    rcases trace_elem_index h1 with ⟨⟨w', habs⟩, _⟩ | ⟨_, hi⟩ | ⟨habs, _⟩
    · simp at habs
    · rcases trace_elem_index h2 with ⟨⟨w', habs⟩, _⟩ | ⟨habs, _⟩ | ⟨_, hj⟩
      · simp at habs
      · simp at habs
      · omega
    · simp at habs

/-- Witness for C6 on the one-line file `hello`: the send at index 0
precedes the close at index 1, which precedes the read at index 2. -/
theorem claim_C6_witness : (0 : Nat) < 1 ∧ (1 : Nat) < 2 :=
  ⟨(claim_C6 initChecker ["hello"]).1 0 1 "hello" (by decide) (by decide),
   (claim_C6 initChecker ["hello"]).2 1 2 (by decide) (by decide)⟩

/-! ## Order facts for the tuple sort in `_check` -/

theorem charListLtb_irrefl : ∀ x : List Char, charListLtb x x = false
  | [] => rfl
  | a :: as => by
    rw [charListLtb, if_neg (lt_irrefl a), if_neg (lt_irrefl a)]
    exact charListLtb_irrefl as

theorem charListLtb_trans : ∀ {x y z : List Char},
    charListLtb x y = true → charListLtb y z = true → charListLtb x z = true
  | [], [], _, h1, _ => by simp [charListLtb] at h1
  | [], _ :: _, [], _, h2 => by simp [charListLtb] at h2
  | [], _ :: _, _ :: _, _, _ => rfl
  | _ :: _, [], _, h1, _ => by simp [charListLtb] at h1
  | _ :: _, _ :: _, [], _, h2 => by simp [charListLtb] at h2
  | a :: as, b :: bs, c :: cs, h1, h2 => by
    by_cases hab : a < b
    · by_cases hbc : b < c
      · rw [charListLtb, if_pos (lt_trans hab hbc)]
      · by_cases hcb : c < b
        · rw [charListLtb, if_neg hbc, if_pos hcb] at h2
          exact absurd h2 (by simp)
        · have heq : b = c := le_antisymm (not_lt.mp hcb) (not_lt.mp hbc)
          subst heq
          rw [charListLtb, if_pos hab]
    · by_cases hba : b < a
      · rw [charListLtb, if_neg hab, if_pos hba] at h1
        exact absurd h1 (by simp)
      · have heq : a = b := le_antisymm (not_lt.mp hba) (not_lt.mp hab)
        subst heq
        rw [charListLtb, if_neg (lt_irrefl a), if_neg (lt_irrefl a)] at h1
        by_cases hac : a < c
        · rw [charListLtb, if_pos hac]
        · by_cases hca : c < a
          · rw [charListLtb, if_neg hac, if_pos hca] at h2
            exact absurd h2 (by simp)
          · rw [charListLtb, if_neg hac, if_neg hca] at h2
            rw [charListLtb, if_neg hac, if_neg hca]
            exact charListLtb_trans h1 h2

theorem charListLtb_eq_of_not : ∀ {x y : List Char},
    charListLtb x y = false → charListLtb y x = false → x = y
  | [], [], _, _ => rfl
  | [], _ :: _, h1, _ => by simp [charListLtb] at h1
  | _ :: _, [], _, h2 => by simp [charListLtb] at h2
  | a :: as, b :: bs, h1, h2 => by
    by_cases hab : a < b
    · rw [charListLtb, if_pos hab] at h1
      exact absurd h1 (by simp)
    · by_cases hba : b < a
      · rw [charListLtb, if_pos hba] at h2
        exact absurd h2 (by simp)
      · have heq : a = b := le_antisymm (not_lt.mp hba) (not_lt.mp hab)
        subst heq
        rw [charListLtb, if_neg (lt_irrefl a), if_neg (lt_irrefl a)] at h1 h2
        rw [charListLtb_eq_of_not h1 h2]

theorem charListLtb_not_both {x y : List Char}
    (h1 : charListLtb x y = true) (h2 : charListLtb y x = true) : False := by
  have := charListLtb_trans h1 h2
  rw [charListLtb_irrefl] at this
  exact Bool.false_ne_true this

instance : IsTrans (Nat × String) pairLeR := by
  constructor
  intro a b c h1 h2
  simp only [pairLeR, pairLe, Bool.or_eq_true, Bool.and_eq_true, decide_eq_true_eq,
    beq_iff_eq, Bool.not_eq_true'] at h1 h2 ⊢
  rcases h1 with h1 | ⟨h1e, h1s⟩
  · rcases h2 with h2 | ⟨h2e, _⟩
    · left; omega
    · left; omega
  · rcases h2 with h2 | ⟨h2e, h2s⟩
    · left; omega
    · right
      refine ⟨by omega, ?_⟩
      rcases hca : charListLtb c.2.data a.2.data with _ | _
      · rfl
      · exfalso
        rcases hab : charListLtb a.2.data b.2.data with _ | _
        · have heq := charListLtb_eq_of_not hab h1s
          rw [heq] at hca
          rw [hca] at h2s
          exact Bool.false_ne_true h2s.symm
        · rcases hbc : charListLtb b.2.data c.2.data with _ | _
          · have heq := charListLtb_eq_of_not hbc h2s
            rw [← heq] at hca
            rw [hca] at h1s
            exact Bool.false_ne_true h1s.symm
          · exact charListLtb_not_both (charListLtb_trans hab hbc) hca

instance : IsTotal (Nat × String) pairLeR := by
  constructor
  intro a b
  simp only [pairLeR, pairLe, Bool.or_eq_true, Bool.and_eq_true, decide_eq_true_eq,
    beq_iff_eq, Bool.not_eq_true']
  rcases Nat.lt_trichotomy a.1 b.1 with h | h | h
  · left; left; exact h
  · rcases hab : charListLtb b.2.data a.2.data with _ | _
    · left; right; exact ⟨h, rfl⟩
    · right; right
      refine ⟨h.symm, ?_⟩
      rcases hba : charListLtb a.2.data b.2.data with _ | _
      · rfl
      · exact absurd (charListLtb_not_both hba hab) (by simp)
  · right; left; exact h

/--
Input for the C7 counterexample: the one-line file `zz aa` followed by an ispell
report listing both words as misspelled, in the order they were sent.
-/
def stTie : CodeCheckerState := (sendWordsLoop initChecker ["zz aa"]).1

/-- The ispell report for both words of `zz aa`, in verdict order. -/
def reportTie : List (String × List String) := [("zz", []), ("aa", [])]

/--
Claim C7 as stated is false: both findings are on line 1, the verdicts were
decoded with `zz` first, yet `_check` emits `aa` first — Python
`list.sort()` compares the whole `(line_num, message)` tuple, so equal
line numbers are ordered by message text, not by verdict insertion
order.
-/
theorem claim_C7_counterexample :
    buildMessages stTie reportTie = [(1, "zz ?"), (1, "aa ?")] ∧
    checkMessages stTie reportTie = [(1, "aa ?"), (1, "zz ?")] ∧
    checkMessages stTie reportTie ≠ buildMessages stTie reportTie := by
  refine ⟨by decide, by decide, by decide⟩

/-- Claim C7, amended: the emitted findings are a permutation of the built
`(line, message)` pairs, sorted by the lexicographic tuple order — line
numbers non-decreasing, and for equal line numbers messages in
non-decreasing text order. -/
theorem claim_C7 (st : CodeCheckerState) (report : List (String × List String)) :
    List.Sorted pairLeR (checkMessages st report) ∧
    (checkMessages st report).Perm (buildMessages st report) :=
  ⟨List.sorted_insertionSort pairLeR _, List.perm_insertionSort pairLeR _⟩

/-! ## Lemmas about the location index -/

/-- Length of a word's recorded location list (0 when absent). -/
def locCount (L : List (String × List Nat)) (w : String) : Nat :=
  ((lookupLoc L w).getD []).length

theorem lookupLoc_append : ∀ (L1 L2 : List (String × List Nat)) (w : String),
    lookupLoc (L1 ++ L2) w =
      match lookupLoc L1 w with
      | some v => some v
      | none => lookupLoc L2 w
  | [], _, _ => rfl
  | (k, v) :: rest, L2, w => by
    by_cases hk : k = w
    · simp [lookupLoc, hk]
    · simp only [List.cons_append, lookupLoc, if_neg hk]
      exact lookupLoc_append rest L2 w

theorem lookupLoc_appendLoc : ∀ (L : List (String × List Nat)) (w : String) (n : Nat)
    (w' : String),
    lookupLoc (appendLoc L w n) w' =
      if w' = w then (lookupLoc L w').map (fun l => l ++ [n]) else lookupLoc L w'
  | [], w, n, w' => by
    by_cases hw : w' = w <;> simp [appendLoc, lookupLoc, hw]
  | (k, v) :: rest, w, n, w' => by
    by_cases hk : k = w
    · subst hk
      by_cases hw : w' = k
      · subst hw
        simp [appendLoc, lookupLoc]
      · have hkw : ¬ k = w' := fun h => hw h.symm
        simp [appendLoc, lookupLoc, hw, hkw]
    · simp only [appendLoc, if_neg hk]
      by_cases hkw : k = w'
      · have hww : ¬ w' = w := fun h => hk (hkw.trans h)
        simp [lookupLoc, hkw, hww]
      · simp only [lookupLoc, if_neg hkw]
        exact lookupLoc_appendLoc rest w n w'

theorem keys_appendLoc : ∀ (L : List (String × List Nat)) (w : String) (n : Nat),
    (appendLoc L w n).map Prod.fst = L.map Prod.fst
  | [], _, _ => rfl
  | (k, v) :: rest, w, n => by
    by_cases hk : k = w
    · simp [appendLoc, hk]
    · simp only [appendLoc, if_neg hk, List.map_cons]
      rw [keys_appendLoc rest w n]

theorem lookupLoc_isSome_iff : ∀ (L : List (String × List Nat)) (w : String),
    (lookupLoc L w).isSome = true ↔ w ∈ L.map Prod.fst
  | [], w => by simp [lookupLoc]
  | (k, v) :: rest, w => by
    by_cases hk : k = w
    · simp [lookupLoc, hk]
    · rw [show lookupLoc ((k, v) :: rest) w = lookupLoc rest w from by
        simp [lookupLoc, hk]]
      rw [lookupLoc_isSome_iff rest w, List.map_cons]
      constructor
      · exact fun h => List.mem_cons_of_mem _ h
      · intro h
        rcases List.mem_cons.mp h with h | h
        · exact absurd h.symm hk
        · exact h

theorem locCount_recordWord (n : Nat) (st : CodeCheckerState) (w' w : String) :
    locCount (recordWord n st w').locations w
      = locCount st.locations w + (if w = w' then 1 else 0) := by
  unfold recordWord
  cases hl : lookupLoc st.locations w' with
  | none =>
    simp only [locCount, lookupLoc_append]
    cases hw : lookupLoc st.locations w with
    | none =>
      by_cases hww : w = w'
      · subst hww
        simp [lookupLoc]
      · have hww' : ¬ w' = w := fun h => hww h.symm
        simp [lookupLoc, hww', if_neg hww]
    | some v =>
      have hww : ¬ w = w' := by
        intro h
        rw [h, hl] at hw
        exact Option.noConfusion hw
      simp [if_neg hww]
  | some v =>
    simp only [locCount, lookupLoc_appendLoc]
    by_cases hww : w = w'
    · subst hww
      rw [if_pos rfl, hl]
      simp
    · rw [if_neg hww, if_neg hww]
      simp

theorem sent_recordWord (n : Nat) (st : CodeCheckerState) (w' : String) :
    (recordWord n st w').sent =
      if (lookupLoc st.locations w').isSome = true then st.sent else st.sent ++ [w'] := by
  unfold recordWord
  cases hl : lookupLoc st.locations w' <;> simp

theorem keys_recordWord (n : Nat) (st : CodeCheckerState) (w' : String) :
    (recordWord n st w').locations.map Prod.fst =
      if (lookupLoc st.locations w').isSome = true
      then st.locations.map Prod.fst
      else st.locations.map Prod.fst ++ [w'] := by
  unfold recordWord
  cases hl : lookupLoc st.locations w' <;> simp [keys_appendLoc]

theorem foldl_record_locCount (n : Nat) :
    ∀ (ws : List String) (st : CodeCheckerState) (w : String),
    locCount ((ws.foldl (recordWord n) st).locations) w
      = locCount st.locations w + ws.count w
  | [], st, w => by simp
  | w' :: ws, st, w => by
    rw [List.foldl_cons, foldl_record_locCount n ws (recordWord n st w') w,
        locCount_recordWord]
    rw [List.count_cons]
    by_cases hww : w = w'
    · simp [hww]
      omega
    · have : (w' == w) = false := beq_eq_false_iff_ne.mpr (fun h => hww h.symm)
      simp [if_neg hww, this]

theorem foldl_record_keys (n : Nat) :
    ∀ (ws : List String) (st : CodeCheckerState),
    ((ws.foldl (recordWord n) st).locations).map Prod.fst
      = firstOcc (st.locations.map Prod.fst) ws
  | [], st => rfl
  | w' :: ws, st => by
    rw [List.foldl_cons, foldl_record_keys n ws (recordWord n st w')]
    show _ = List.foldl _ _ (w' :: ws)
    rw [List.foldl_cons]
    show _ = firstOcc (if w' ∈ st.locations.map Prod.fst
      then st.locations.map Prod.fst else st.locations.map Prod.fst ++ [w']) ws
    rw [keys_recordWord]
    by_cases hmem : w' ∈ st.locations.map Prod.fst
    · rw [if_pos ((lookupLoc_isSome_iff _ _).mpr hmem), if_pos hmem]
    · rw [if_neg (fun h => hmem ((lookupLoc_isSome_iff _ _).mp h)), if_neg hmem]

theorem foldl_record_sent (n : Nat) :
    ∀ (ws : List String) (st : CodeCheckerState),
    st.sent = st.locations.map Prod.fst →
    (ws.foldl (recordWord n) st).sent
      = ((ws.foldl (recordWord n) st).locations).map Prod.fst
  | [], st, h => h
  | w' :: ws, st, h => by
    rw [List.foldl_cons]
    refine foldl_record_sent n ws (recordWord n st w') ?_
    rw [sent_recordWord, keys_recordWord, h]

theorem setLanguage_ok_fields {st : CodeCheckerState} {lang : String}
    {st' : CodeCheckerState} (h : setLanguage st lang = .ok st') :
    st'.locations = st.locations ∧ st'.sent = st.sent ∧ st'.line_num = st.line_num := by
  unfold setLanguage at h
  cases hl : LANG_EXCLUDE.lookup lang with
  | none => rw [hl] at h; exact absurd h (by simp)
  | some ll =>
    rw [hl] at h
    simp only [Except.ok.injEq] at h
    subst h
    exact ⟨rfl, rfl, rfl⟩

theorem guessLanguage_fields (st : CodeCheckerState) (line : String) :
    (guessLanguage st line).locations = st.locations ∧
    (guessLanguage st line).sent = st.sent ∧
    (guessLanguage st line).line_num = st.line_num := by
  unfold guessLanguage
  split
  · exact ⟨rfl, rfl, rfl⟩
  · split
    · split
      · rename_i st' hm
        exact setLanguage_ok_fields hm
      · exact ⟨rfl, rfl, rfl⟩
    · split
      · split
        · rename_i st' hm
          exact setLanguage_ok_fields hm
        · exact ⟨rfl, rfl, rfl⟩
      · exact ⟨rfl, rfl, rfl⟩

theorem firstOcc_append (acc : List String) (xs ys : List String) :
    firstOcc acc (xs ++ ys) = firstOcc (firstOcc acc xs) ys := by
  unfold firstOcc
  rw [List.foldl_append]

theorem mem_firstOcc : ∀ (ws acc : List String) (w : String),
    w ∈ firstOcc acc ws ↔ w ∈ acc ∨ w ∈ ws
  | [], acc, w => by simp [firstOcc]
  | w' :: ws, acc, w => by
    show w ∈ firstOcc (if w' ∈ acc then acc else acc ++ [w']) ws ↔ _
    rw [mem_firstOcc ws _ w]
    by_cases hmem : w' ∈ acc
    · rw [if_pos hmem]
      simp only [List.mem_cons]
      constructor
      · rintro (h | h)
        · exact Or.inl h
        · exact Or.inr (Or.inr h)
      · rintro (h | h | h)
        · exact Or.inl h
        · exact Or.inl (h ▸ hmem)
        · exact Or.inr h
    · rw [if_neg hmem]
      simp only [List.mem_append, List.mem_cons, List.not_mem_nil, or_false]
      constructor
      · rintro ((h | h) | h)
        · exact Or.inl h
        · exact Or.inr (Or.inl h)
        · exact Or.inr (Or.inr h)
      · rintro (h | h | h)
        · exact Or.inl (Or.inl h)
        · exact Or.inl (Or.inr h)
        · exact Or.inr h

theorem nodup_firstOcc : ∀ (ws acc : List String), acc.Nodup → (firstOcc acc ws).Nodup
  | [], _, h => h
  | w' :: ws, acc, h => by
    show (firstOcc (if w' ∈ acc then acc else acc ++ [w']) ws).Nodup
    refine nodup_firstOcc ws _ ?_
    by_cases hmem : w' ∈ acc
    · rw [if_pos hmem]
      exact h
    · rw [if_neg hmem]
      refine List.Nodup.append h (List.nodup_singleton w') ?_
      intro x hx hxw
      rw [List.mem_singleton] at hxw
      exact hmem (hxw ▸ hx)

theorem sendWordsLoop_locCount : ∀ (lines : List String) (st : CodeCheckerState) (w : String),
    locCount (sendWordsLoop st lines).1.locations w
      = locCount st.locations w
        + (((sendWordsLoop st lines).2).flatMap (fun p => p.2)).count w
  | [], st, w => by simp [sendWordsLoop]
  | line :: rest, st, w => by
    simp only [sendWordsLoop, List.flatMap_cons, List.count_append]
    rw [sendWordsLoop_locCount rest _ w, foldl_record_locCount]
    have hst1 : locCount
        (if st.line_num = 0 ∧ st.language = none then guessLanguage st line else st).locations w
          = locCount st.locations w := by
      split
      · rw [(guessLanguage_fields st line).1]
      · rfl
    rw [hst1]
    omega

theorem sendWordsLoop_keys : ∀ (lines : List String) (st : CodeCheckerState),
    ((sendWordsLoop st lines).1.locations).map Prod.fst
      = firstOcc (st.locations.map Prod.fst)
          (((sendWordsLoop st lines).2).flatMap (fun p => p.2))
  | [], st => by simp [sendWordsLoop, firstOcc]
  | line :: rest, st => by
    simp only [sendWordsLoop, List.flatMap_cons]
    rw [sendWordsLoop_keys rest _, foldl_record_keys, firstOcc_append]
    have hst1 : (if st.line_num = 0 ∧ st.language = none
        then guessLanguage st line else st).locations = st.locations := by
      split
      · exact (guessLanguage_fields st line).1
      · rfl
    rw [hst1]

theorem sendWordsLoop_sent : ∀ (lines : List String) (st : CodeCheckerState),
    st.sent = st.locations.map Prod.fst →
    (sendWordsLoop st lines).1.sent = ((sendWordsLoop st lines).1.locations).map Prod.fst
  | [], st, h => h
  | line :: rest, st, h => by
    simp only [sendWordsLoop]
    refine sendWordsLoop_sent rest _ ?_
    refine foldl_record_sent _ _ _ ?_
    have hst1 : (if st.line_num = 0 ∧ st.language = none
        then guessLanguage st line else st).locations = st.locations ∧
        (if st.line_num = 0 ∧ st.language = none
        then guessLanguage st line else st).sent = st.sent := by
      split
      · exact ⟨(guessLanguage_fields st line).1, (guessLanguage_fields st line).2.1⟩
      · exact ⟨rfl, rfl⟩
    show (if st.line_num = 0 ∧ st.language = none
        then guessLanguage st line else st).sent = _
    rw [hst1.1, hst1.2, h]

/-- Claim C3: starting from the empty location index and nothing sent, after
`_send_words` runs over the whole file every word's recorded
location-list length equals the number of times tokenization produced
that word, and the sequence of words sent to ispell is exactly the
first-occurrence subsequence of the produced words — in particular each
distinct produced word is sent exactly once, at its first occurrence,
and unproduced words are never sent. -/
theorem claim_C3 (st0 : CodeCheckerState) (lines : List String)
    (hloc : st0.locations = []) (hsent : st0.sent = []) :
    ((sendWordsLoop st0 lines).1.sent
        = firstOcc [] (((sendWordsLoop st0 lines).2).flatMap (fun p => p.2))) ∧
    ∀ w : String,
      locCount (sendWordsLoop st0 lines).1.locations w
          = ((((sendWordsLoop st0 lines).2).flatMap (fun p => p.2))).count w ∧
      (sendWordsLoop st0 lines).1.sent.count w
          = (if ((((sendWordsLoop st0 lines).2).flatMap (fun p => p.2))).count w = 0
             then 0 else 1) := by
  have hkeys := sendWordsLoop_keys lines st0
  rw [hloc] at hkeys
  simp only [List.map_nil] at hkeys
  have hsent2 : (sendWordsLoop st0 lines).1.sent
      = firstOcc [] (((sendWordsLoop st0 lines).2).flatMap (fun p => p.2)) := by
    rw [sendWordsLoop_sent lines st0 (by rw [hsent, hloc]; rfl)]
    exact hkeys
  refine ⟨hsent2, ?_⟩
  intro w
  constructor
  · rw [sendWordsLoop_locCount lines st0 w, hloc]
    simp [locCount, lookupLoc]
  · rw [hsent2]
    have hnd : (firstOcc []
        (((sendWordsLoop st0 lines).2).flatMap (fun p => p.2))).Nodup :=
      nodup_firstOcc _ [] List.nodup_nil
    by_cases hmem : w ∈ ((sendWordsLoop st0 lines).2).flatMap (fun p => p.2)
    · have hw : w ∈ firstOcc [] (((sendWordsLoop st0 lines).2).flatMap (fun p => p.2)) :=
        (mem_firstOcc _ _ _).mpr (Or.inr hmem)
      rw [List.count_eq_one_of_mem hnd hw,
          if_neg (fun h => (List.count_eq_zero.mp h) hmem)]
    · have hw : w ∉ firstOcc [] (((sendWordsLoop st0 lines).2).flatMap (fun p => p.2)) := by
        intro h
        rcases (mem_firstOcc _ _ _).mp h with h | h
        · simp at h
        · exact hmem h
      rw [List.count_eq_zero_of_not_mem hw, if_pos (List.count_eq_zero.mpr hmem)]

/-- Witness for C3 on a concrete two-line file: `foo` is produced twice
and `bar` twice but each is sent exactly once, in first-occurrence
order. -/
theorem claim_C3_witness :
    ((sendWordsLoop initChecker ["foo bar foo", "bar baz"]).1.sent
        = firstOcc []
            (((sendWordsLoop initChecker ["foo bar foo", "bar baz"]).2).flatMap
              (fun p => p.2))) ∧
    (sendWordsLoop initChecker ["foo bar foo", "bar baz"]).1.sent
        = ["foo", "bar", "baz"] :=
  ⟨(claim_C3 initChecker ["foo bar foo", "bar baz"] rfl rfl).1, by decide⟩
